import Mathlib

/-!
Shallow embedding of the goshort URL shortener (src/main.go).

Strings are modelled as `List Char`; the two global Go maps
(`storage : slug → url`, `storageReverse : url → slug`) are modelled as
association lists with Go-map semantics (assignment overwrites the value
of an existing key, otherwise appends).  The process-global RNG
(`math/rand`) is modelled as an oracle `Nat → Fin 62` giving, for each
draw position, the index `rand.Intn(62)` returned; for the retry loop in
`genUniqueSlug` the oracle has an extra attempt index.  A `panic` in the
Go code is modelled as `Option.none`.  File I/O is modelled by passing
the file content as `Option (List Char)` (`none` = the file does not
exist) and by returning the written bytes as a `List Char`.
-/

set_option autoImplicit false

namespace GoShort

abbrev Str := List Char

abbrev SMap := List (Str × Str)

/-- Go map read `v, ok := m[k]` : first (and only, keys are unique) match. -/
def mapFind (m : SMap) (k : Str) : Option Str :=
  match m with
  | [] => none
  | p :: rest => if p.1 = k then some p.2 else mapFind rest k

/-- Go map assignment `m[k] = v` : overwrite the existing entry, else append. -/
def mapInsert (m : SMap) (k v : Str) : SMap :=
  match m with
  | [] => [(k, v)]
  | p :: rest => if p.1 = k then (k, v) :: rest else p :: mapInsert rest k v

/-- The two global maps of main.go (`storage`, `storageReverse`). -/
structure Store where
  storage : SMap
  storageReverse : SMap
deriving DecidableEq, Repr

def emptyStore : Store := ⟨[], []⟩

/-! ### Reading the storage file (readStorage, main.go lines 44-63)

`bufio.Scanner` with the default `ScanLines` split: tokens are the
maximal `'\n'`-free segments, each with one trailing `'\r'` removed, and
a final segment without a terminating newline is returned only when it
is non-empty. -/

/-- `dropCR` of bufio.ScanLines: remove one terminal carriage return. -/
def dropCR (l : Str) : Str :=
  if l.getLast? = some '\r' then l.dropLast else l

def scanLinesAux : Str → Str → List Str
  | [], acc => if acc = [] then [] else [dropCR acc.reverse]
  | c :: rest, acc =>
    if c = '\n' then dropCR acc.reverse :: scanLinesAux rest []
    else scanLinesAux rest (c :: acc)

def scanLines (s : Str) : List Str := scanLinesAux s []

/-- `strings.SplitN(text, " ", 2)` viewed through the `len(pieces) == 2`
check of readStorage: `some (before, after)` at the first space, `none`
when the line has no space. -/
def splitAtFirstSpace : Str → Option (Str × Str)
  | [] => none
  | c :: rest =>
    if c = ' ' then some ([], rest)
    else
      match splitAtFirstSpace rest with
      | some (a, b) => some (c :: a, b)
      | none => none

/-- Body of the scanner loop of readStorage: a line with a space fills
both maps, any other line is skipped. -/
def loadLine (st : Store) (line : Str) : Store :=
  match splitAtFirstSpace line with
  | some (slug, u) =>
    { storage := mapInsert st.storage slug u,
      storageReverse := mapInsert st.storageReverse u slug }
  | none => st

/-- readStorage: a missing file (`none`) yields the empty store; an
existing file is scanned line by line. -/
def readStorage (file : Option Str) : Store :=
  match file with
  | none => emptyStore
  | some content => (scanLines content).foldl loadLine emptyStore

/-! ### Writing the storage file (writeStorage, main.go lines 70-91) -/

/-- `strings.Replace(url, "\n", "", -1)`. -/
def stripNL (u : Str) : Str := u.filter (fun c => c ≠ '\n')

/-- One `fmt.Fprintf(f, "%s %s\n", slug, strings.Replace(url, "\n", "", -1))`. -/
def writeLine (p : Str × Str) : Str := p.1 ++ ' ' :: stripNL p.2 ++ ['\n']

/-- The bytes writeStorage puts in the file: one line per forward entry.
(Go iterates the map in unspecified order; the theorems below are
order-insensitive, quantifying over the association list.) -/
def writeStorage (m : SMap) : Str := (m.map writeLine).flatten

/-! ### Slug generation (main.go lines 93-126) -/

def allSlugPossibilities : Str :=
  "abcdefghijklmnopqrstuvwxyzABCDEFGHIJKLMNOPQRSTUVWXYZ0123456789".toList

/-- `rune(allSlugPossibilities[rand.Intn(len(allSlugPossibilities))])`,
with the RNG outcome `r : Fin 62` passed in. -/
def oneSlugEntry (r : Fin 62) : Char := allSlugPossibilities.getD r.val 'a'

/-- genSlug: one character per index `0 ≤ ix < space`. -/
def genSlug (space : Nat) (rnd : Nat → Fin 62) : Str :=
  (List.range space).map (fun ix => oneSlugEntry (rnd ix))

/-- The `for ix < 100000` loop of genUniqueSlug, with the remaining
fuel and the current attempt number explicit. -/
def genLoop (m : SMap) (space : Nat) (rnd : Nat → Nat → Fin 62) :
    Nat → Nat → Option Str
  | 0, _ => none
  | fuel + 1, attempt =>
    if (mapFind m (genSlug space (rnd attempt))).isSome then
      genLoop m space rnd fuel (attempt + 1)
    else some (genSlug space (rnd attempt))

/-- genUniqueSlug: up to 100000 generate-and-check attempts against the
forward map `m`; `none` models the `panic` on exhaustion. -/
def genUniqueSlug (m : SMap) (space : Nat) (rnd : Nat → Nat → Fin 62) : Option Str :=
  genLoop m space rnd 100000 0

/-- invalidSlug: true when some character is outside the 62-character
alphabet. -/
def invalidSlug (slug : Str) : Bool :=
  slug.any (fun c => !(allSlugPossibilities.contains c))

/-! ### The HTTP handler (main.go lines 134-175) -/

structure Config where
  serverName : Str
  secret : Str
  space : Nat

/-- The observable responses the handler writes: `w.Write` of a body,
`http.Error` (status + message), `http.Redirect` (status + Location),
and `http.NotFound`. -/
inductive Response where
  | respOk (body : Str)
  | respError (status : Nat) (msg : Str)
  | respRedirect (status : Nat) (location : Str)
  | respNotFound
deriving DecidableEq, Repr

/-- `fmt.Sprintf("%s/%s", *ServerNameConfig, slug)`. -/
def shortUrlBody (cfg : Config) (slug : Str) : Str := cfg.serverName ++ '/' :: slug

/-- The POST /submit branch (main.go lines 138-161).  `none` models the
process dying in the genUniqueSlug panic.  Note: the source inserts the
new pair into `storage` only; `storageReverse` is not updated here. -/
def submit (cfg : Config) (rnd : Nat → Nat → Fin 62) (st : Store)
    (secret u slug : Str) : Option (Store × Response) :=
  if secret = cfg.secret ∧ u ≠ [] then
    match mapFind st.storageReverse u with
    | some existingSlug => some (st, .respOk (shortUrlBody cfg existingSlug))
    | none =>
      match (if slug = [] ∨ invalidSlug slug = true ∨ (mapFind st.storage slug).isSome then
          genUniqueSlug st.storage cfg.space rnd
        else some slug) with
      | none => none
      | some s =>
        some ({ st with storage := mapInsert st.storage s u },
              .respOk (shortUrlBody cfg s))
  else some (st, .respError 401 "Not authorized".toList)

/-- `strings.TrimPrefix(path, "/")`. -/
def dropLeadingSlash (path : Str) : Str :=
  match path with
  | '/' :: rest => rest
  | l => l

structure Request where
  method : Str
  path : Str
  secretField : Str
  urlField : Str
  slugField : Str

/-- The whole `http.HandleFunc("/", ...)` closure: POST /submit goes to
`submit`; GET and HEAD look the path (leading slash stripped) up in the
forward map and answer 301 or 404; everything else is 404. -/
def handle (cfg : Config) (rnd : Nat → Nat → Fin 62) (st : Store) (r : Request) :
    Option (Store × Response) :=
  if r.method = "POST".toList ∧ r.path = "/submit".toList then
    submit cfg rnd st r.secretField r.urlField r.slugField
  else if r.method = "GET".toList ∨ r.method = "HEAD".toList then
    match mapFind st.storage (dropLeadingSlash r.path) with
    | some u => some (st, .respRedirect 301 u)
    | none => some (st, .respNotFound)
  else some (st, .respNotFound)

/-! ### Concrete instances used to evaluate the model -/

/-- A deterministic stand-in for the RNG: attempt `a` draws index `a % 62`
at every position. -/
def rndSeq (attempt : Nat) (_ix : Nat) : Fin 62 := ⟨attempt % 62, Nat.mod_lt _ (by decide)⟩

/-- An all-zero RNG for single-slug draws. -/
def rndZero (_ix : Nat) : Fin 62 := ⟨0, by decide⟩

def cfg1 : Config := ⟨"srv".toList, "s".toList, 1⟩

/-- The store after one submission of url "u" to `cfg1` from the empty
store (RNG `rndSeq`). -/
def stOne : Store := ⟨[("a".toList, "u".toList)], []⟩

/-- The store after a second submission of url "u". -/
def stTwo : Store := ⟨[("a".toList, "u".toList), ("b".toList, "u".toList)], []⟩

/-- The forward mapping with each URL's newlines stripped: what the spec
predicts a persist/reload round trip preserves. -/
def strippedPairs (m : SMap) : SMap := m.map (fun p => (p.1, stripNL p.2))

/-- The part of `writeLine` before the terminating newline. -/
def lineContent (p : Str × Str) : Str := p.1 ++ ' ' :: stripNL p.2

/-- A store mapping the empty slug, as produced by loading " y". -/
def stEmptySlug : Store := ⟨[([], ['y'])], []⟩

/-! ## Helper lemmas -/

theorem mapFind_mapInsert_self (m : SMap) (k v : Str) :
    mapFind (mapInsert m k v) k = some v := by
  induction m with
  | nil => simp [mapInsert, mapFind]
  | cons p rest ih =>
    by_cases h : p.1 = k
    · simp [mapInsert, h, mapFind]
    · simp [mapInsert, h, mapFind, ih]

theorem splitAtFirstSpace_eq (l : Str) :
    splitAtFirstSpace l =
      if ' ' ∈ l then
        some (l.takeWhile (fun c => c != ' '), (l.dropWhile (fun c => c != ' ')).tail)
      else none := by
  induction l with
  | nil => simp [splitAtFirstSpace]
  | cons c rest ih =>
    by_cases hc : c = ' '
    · subst hc
      simp [splitAtFirstSpace, List.takeWhile_cons, List.dropWhile_cons]
    · by_cases hm : ' ' ∈ rest
      · simp [splitAtFirstSpace, hc, ih, hm, List.takeWhile_cons, List.dropWhile_cons,
          Ne.symm hc]
      · simp [splitAtFirstSpace, hc, ih, hm, Ne.symm hc]

theorem splitAtFirstSpace_append (s u : Str) (hs : ' ' ∉ s) :
    splitAtFirstSpace (s ++ ' ' :: u) = some (s, u) := by
  induction s with
  | nil => simp [splitAtFirstSpace]
  | cons c s ih =>
    have hc : c ≠ ' ' := fun h => hs (h ▸ List.mem_cons_self c s)
    have hs' : ' ' ∉ s := fun h => hs (List.mem_cons_of_mem c h)
    simp only [List.cons_append, splitAtFirstSpace, if_neg hc, List.append_eq]
    rw [ih hs']

theorem oneSlugEntry_mem : ∀ r : Fin 62, oneSlugEntry r ∈ allSlugPossibilities := by
  decide

/-! ## Claim theorems -/

/-- C1: the claim fails on the code.  Starting from the loaded empty
store, submitting url "u" with the correct secret twice (slug field
empty, slug length 1, RNG `rndSeq`) returns "srv/a" the first time but
"srv/b" the second time, and the second submission adds a second store
entry: the submit path never writes `storageReverse`, so the reverse
lookup that should deduplicate the second submission misses. -/
theorem C1_second_submission_not_deduplicated :
    readStorage none = emptyStore ∧
    submit cfg1 rndSeq emptyStore "s".toList "u".toList [] =
      some (stOne, .respOk "srv/a".toList) ∧
    submit cfg1 rndSeq stOne "s".toList "u".toList [] =
      some (stTwo, .respOk "srv/b".toList) ∧
    "srv/b".toList ≠ "srv/a".toList ∧
    stTwo.storage.length = stOne.storage.length + 1 := by
  decide

/-- C2: the claim fails on the code.  The store reached from the loaded
empty store by one authorized submission has the forward entry
("a", "u") but an empty reverse mapping: the submit path inserts into
`storage` only, so the forward/reverse consistency invariant is broken
by every in-session creation. -/
theorem C2_forward_entry_without_reverse_entry :
    readStorage none = emptyStore ∧
    submit cfg1 rndSeq emptyStore "s".toList "u".toList [] =
      some (stOne, .respOk "srv/a".toList) ∧
    ("a".toList, "u".toList) ∈ stOne.storage ∧
    mapFind stOne.storageReverse "u".toList = none := by
  decide

/-- C4: a submission is answered with `http.Error 401 "Not authorized"`
and an unchanged store exactly when the secret mismatches or the URL is
empty; in particular no further validation of the URL is performed. -/
theorem C4_unauthorized_iff (cfg : Config) (rnd : Nat → Nat → Fin 62)
    (st : Store) (secret u slug : Str) :
    (¬(secret = cfg.secret ∧ u ≠ [])) ↔
      submit cfg rnd st secret u slug =
        some (st, .respError 401 "Not authorized".toList) := by
  constructor
  · intro h
    simp only [submit, if_neg h]
  · intro h hpos
    simp only [submit, if_pos hpos] at h
    cases hrev : mapFind st.storageReverse u with
    | some s => simp [hrev] at h
    | none =>
      simp only [hrev] at h
      split at h
      · exact Option.noConfusion h
      · simp at h

theorem C4_witness :
    submit cfg1 rndSeq emptyStore "bad".toList "u".toList [] =
      some (emptyStore, .respError 401 "Not authorized".toList) :=
  (C4_unauthorized_iff cfg1 rndSeq emptyStore "bad".toList "u".toList []).mp
    (by decide)

/-- C6: every generated slug has exactly the configured length and draws
all of its characters from the 62-character alphabet. -/
theorem C6_genSlug_length_and_alphabet (space : Nat) (rnd : Nat → Fin 62) :
    (genSlug space rnd).length = space ∧
    ∀ c, c ∈ genSlug space rnd → c ∈ allSlugPossibilities := by
  constructor
  · simp [genSlug]
  · intro c hc
    simp only [genSlug, List.mem_map] at hc
    obtain ⟨ix, -, rfl⟩ := hc
    exact oneSlugEntry_mem (rnd ix)

theorem C6_witness :
    (genSlug 2 rndZero).length = 2 ∧ 'a' ∈ allSlugPossibilities :=
  ⟨(C6_genSlug_length_and_alphabet 2 rndZero).1,
   (C6_genSlug_length_and_alphabet 2 rndZero).2 'a' (by decide)⟩

/-- C9: a missing file loads as the empty store; an existing file is
scanned line by line, a line without a space leaves the store unchanged,
and a line with a space adds the entry whose slug is the text before
the first space and whose URL is everything after it. -/
theorem C9_load_line_behavior (st : Store) (l content : Str) :
    readStorage none = emptyStore ∧
    (' ' ∉ l → loadLine st l = st) ∧
    (' ' ∈ l → loadLine st l =
      { storage := mapInsert st.storage (l.takeWhile (fun c => c != ' '))
          ((l.dropWhile (fun c => c != ' ')).tail),
        storageReverse := mapInsert st.storageReverse
          ((l.dropWhile (fun c => c != ' ')).tail)
          (l.takeWhile (fun c => c != ' ')) }) ∧
    readStorage (some content) = (scanLines content).foldl loadLine emptyStore := by
  refine ⟨rfl, ?_, ?_, rfl⟩
  · intro h
    simp [loadLine, splitAtFirstSpace_eq, h]
  · intro h
    simp [loadLine, splitAtFirstSpace_eq, h]

theorem C9_witness :
    loadLine emptyStore ['a'] = emptyStore ∧
    loadLine emptyStore [' ', 'b'] =
      { storage := mapInsert emptyStore.storage ([' ', 'b'].takeWhile (fun c => c != ' '))
          (([' ', 'b'].dropWhile (fun c => c != ' ')).tail),
        storageReverse := mapInsert emptyStore.storageReverse
          (([' ', 'b'].dropWhile (fun c => c != ' ')).tail)
          ([' ', 'b'].takeWhile (fun c => c != ' ')) } :=
  ⟨(C9_load_line_behavior emptyStore ['a'] []).2.1 (by decide),
   (C9_load_line_behavior emptyStore [' ', 'b'] []).2.2.1 (by decide)⟩

/-- C10: loading validates nothing about slugs: a line whose slug part
contains characters outside the alphabet is loaded unchanged, a line
beginning with a space loads an entry under the empty slug, and a store
mapping the empty slug is served by GET / with a 301 redirect like any
other entry. -/
theorem C10_no_slug_validation_on_load (st : Store) (s u : Str)
    (hs : ' ' ∉ s) (hinv : invalidSlug s = true)
    (stE : Store) (u' : Str) (hmap : mapFind stE.storage [] = some u')
    (cfg : Config) (rnd : Nat → Nat → Fin 62) (q1 q2 q3 : Str) :
    loadLine st (s ++ ' ' :: u) =
      ⟨mapInsert st.storage s u, mapInsert st.storageReverse u s⟩ ∧
    loadLine st (' ' :: u) =
      ⟨mapInsert st.storage [] u, mapInsert st.storageReverse u []⟩ ∧
    handle cfg rnd stE ⟨"GET".toList, ['/'], q1, q2, q3⟩ =
      some (stE, .respRedirect 301 u') := by
  refine ⟨?_, ?_, ?_⟩
  · simp [loadLine, splitAtFirstSpace_append s u hs]
  · simp [loadLine, splitAtFirstSpace]
  · simp only [handle, if_neg (by decide : ¬("GET".toList = "POST".toList ∧
      (['/'] : Str) = "/submit".toList)), if_pos (Or.inl rfl)]
    have hd : dropLeadingSlash ['/'] = [] := rfl
    rw [hd, hmap]
    simp

theorem submit_fresh (cfg : Config) (rnd : Nat → Nat → Fin 62) (st : Store)
    (u slug : Str) (st' : Store) (resp : Response)
    (hu : u ≠ []) (hrev : mapFind st.storageReverse u = none)
    (hsub : submit cfg rnd st cfg.secret u slug = some (st', resp)) :
    ∃ s, st' = { st with storage := mapInsert st.storage s u } ∧
      resp = .respOk (shortUrlBody cfg s) := by
  unfold submit at hsub
  rw [if_pos (show cfg.secret = cfg.secret ∧ u ≠ [] from ⟨rfl, hu⟩), hrev] at hsub
  by_cases hc : slug = [] ∨ invalidSlug slug = true ∨ (mapFind st.storage slug).isSome = true
  · rw [if_pos hc] at hsub
    cases hg : genUniqueSlug st.storage cfg.space rnd with
    | none => rw [hg] at hsub; exact Option.noConfusion hsub
    | some s =>
      rw [hg] at hsub
      simp only [Option.some.injEq, Prod.mk.injEq] at hsub
      exact ⟨s, hsub.1.symm, hsub.2.symm⟩
  · rw [if_neg hc] at hsub
    simp only [Option.some.injEq, Prod.mk.injEq] at hsub
    exact ⟨slug, hsub.1.symm, hsub.2.symm⟩

theorem handle_get_found (cfg : Config) (rnd : Nat → Nat → Fin 62) (st : Store)
    (m : Str) (hm : m = "GET".toList ∨ m = "HEAD".toList)
    (s u q1 q2 q3 : Str) (hfind : mapFind st.storage s = some u) :
    handle cfg rnd st ⟨m, '/' :: s, q1, q2, q3⟩ =
      some (st, .respRedirect 301 u) := by
  have hnp : ¬(m = "POST".toList ∧ ('/' :: s : Str) = "/submit".toList) := by
    rcases hm with rfl | rfl
    · exact fun h => (by decide : ¬("GET".toList = "POST".toList)) h.1
    · exact fun h => (by decide : ¬("HEAD".toList = "POST".toList)) h.1
  have hgh : m = "GET".toList ∨ m = "HEAD".toList := hm
  simp only [handle, if_neg hnp, if_pos hgh]
  have hd : dropLeadingSlash ('/' :: s) = s := rfl
  rw [hd, hfind]

theorem C10_witness :
    loadLine emptyStore (['%'] ++ ' ' :: ['x']) =
      ⟨mapInsert emptyStore.storage ['%'] ['x'],
       mapInsert emptyStore.storageReverse ['x'] ['%']⟩ ∧
    loadLine emptyStore (' ' :: ['x']) =
      ⟨mapInsert emptyStore.storage [] ['x'],
       mapInsert emptyStore.storageReverse ['x'] []⟩ ∧
    handle cfg1 rndSeq stEmptySlug ⟨"GET".toList, ['/'], [], [], []⟩ =
      some (stEmptySlug, .respRedirect 301 ['y']) :=
  C10_no_slug_validation_on_load emptyStore ['%'] ['x'] (by decide) (by decide)
    stEmptySlug ['y'] (by decide) cfg1 rndSeq [] [] []

/-- C3: an authorized POST /submit of a fresh non-empty URL answers with
the body `<server-name>/<slug>` for some slug, and a subsequent GET or
HEAD of `/<slug>` on the resulting store answers with a 301 permanent
redirect to exactly the submitted URL. -/
theorem C3_fresh_submission_then_resolve (cfg : Config) (rnd : Nat → Nat → Fin 62)
    (st st' : Store) (resp : Response) (u slug q1 q2 q3 q4 q5 q6 : Str)
    (hu : u ≠ []) (hrev : mapFind st.storageReverse u = none)
    (hsub : handle cfg rnd st ⟨"POST".toList, "/submit".toList, cfg.secret, u, slug⟩ =
      some (st', resp)) :
    ∃ s, resp = .respOk (shortUrlBody cfg s) ∧
      handle cfg rnd st' ⟨"GET".toList, '/' :: s, q1, q2, q3⟩ =
        some (st', .respRedirect 301 u) ∧
      handle cfg rnd st' ⟨"HEAD".toList, '/' :: s, q4, q5, q6⟩ =
        some (st', .respRedirect 301 u) := by
  have hpost : (("POST".toList : Str) = "POST".toList ∧
      ("/submit".toList : Str) = "/submit".toList) := ⟨rfl, rfl⟩
  rw [handle, if_pos hpost] at hsub
  obtain ⟨s, hst, hresp⟩ := submit_fresh cfg rnd st u slug st' resp hu hrev hsub
  have hfind : mapFind st'.storage s = some u := by
    rw [hst]
    exact mapFind_mapInsert_self st.storage s u
  exact ⟨s, hresp,
    handle_get_found cfg rnd st' "GET".toList (Or.inl rfl) s u q1 q2 q3 hfind,
    handle_get_found cfg rnd st' "HEAD".toList (Or.inr rfl) s u q4 q5 q6 hfind⟩

theorem C3_witness :
    ∃ s, Response.respOk "srv/a".toList = .respOk (shortUrlBody cfg1 s) ∧
      handle cfg1 rndSeq stOne ⟨"GET".toList, '/' :: s, [], [], []⟩ =
        some (stOne, .respRedirect 301 "u".toList) ∧
      handle cfg1 rndSeq stOne ⟨"HEAD".toList, '/' :: s, [], [], []⟩ =
        some (stOne, .respRedirect 301 "u".toList) :=
  C3_fresh_submission_then_resolve cfg1 rndSeq emptyStore stOne
    (.respOk "srv/a".toList) "u".toList [] [] [] [] [] [] []
    (by decide) (by decide) (by decide)

/-- C5: in an authorized submission of a fresh URL, an explicitly
supplied slug is used as-is when it is non-empty, alphabet-only and
absent from the forward map; in every other case the store falls back to
random unique-slug generation, silently, the response still being the
200 body (or, only if generation itself exhausts its attempts, the
process dies — never an error response). -/
theorem C5_explicit_slug_rule (cfg : Config) (rnd : Nat → Nat → Fin 62) (st : Store)
    (u slug : Str) (hu : u ≠ []) (hrev : mapFind st.storageReverse u = none) :
    (slug ≠ [] ∧ invalidSlug slug = false ∧ mapFind st.storage slug = none →
      submit cfg rnd st cfg.secret u slug =
        some ({ st with storage := mapInsert st.storage slug u },
              .respOk (shortUrlBody cfg slug))) ∧
    (slug = [] ∨ invalidSlug slug = true ∨ (mapFind st.storage slug).isSome = true →
      submit cfg rnd st cfg.secret u slug =
        (genUniqueSlug st.storage cfg.space rnd).map
          (fun s => ({ st with storage := mapInsert st.storage s u },
                     .respOk (shortUrlBody cfg s)))) := by
  constructor
  · intro ⟨h1, h2, h3⟩
    have hc : ¬(slug = [] ∨ invalidSlug slug = true ∨ (mapFind st.storage slug).isSome = true) := by
      simp [h1, h2, h3]
    unfold submit
    rw [if_pos (show cfg.secret = cfg.secret ∧ u ≠ [] from ⟨rfl, hu⟩), hrev, if_neg hc]
  · intro hc
    unfold submit
    rw [if_pos (show cfg.secret = cfg.secret ∧ u ≠ [] from ⟨rfl, hu⟩), hrev, if_pos hc]
    cases hg : genUniqueSlug st.storage cfg.space rnd <;> simp [hg]

theorem C5_witness :
    submit cfg1 rndSeq emptyStore cfg1.secret "u".toList "x".toList =
      some ({ emptyStore with storage := mapInsert emptyStore.storage "x".toList "u".toList },
            .respOk (shortUrlBody cfg1 "x".toList)) :=
  (C5_explicit_slug_rule cfg1 rndSeq emptyStore "u".toList "x".toList
    (by decide) (by decide)).1 (by decide)

theorem genLoop_eq_none_iff (m : SMap) (space : Nat) (rnd : Nat → Nat → Fin 62) :
    ∀ fuel start, genLoop m space rnd fuel start = none ↔
      ∀ i, i < fuel → (mapFind m (genSlug space (rnd (start + i)))).isSome = true := by
  intro fuel
  induction fuel with
  | zero => intro start; simp [genLoop]
  | succ fuel ih =>
    intro start
    rw [genLoop]
    by_cases h : (mapFind m (genSlug space (rnd start))).isSome = true
    · rw [if_pos h, ih (start + 1)]
      constructor
      · intro hall i hi
        cases i with
        | zero => simpa using h
        | succ j =>
          have hj := hall j (by omega)
          have e : start + 1 + j = start + (j + 1) := by omega
          rwa [e] at hj
      · intro hall i hi
        have hj := hall (i + 1) (by omega)
        have e : start + (i + 1) = start + 1 + i := by omega
        rwa [e] at hj
    · rw [if_neg h]
      constructor
      · intro hsome
        exact absurd hsome (by simp)
      · intro hall
        have h0 := hall 0 (by omega)
        rw [Nat.add_zero] at h0
        exact absurd h0 h

theorem genLoop_some_spec (m : SMap) (space : Nat) (rnd : Nat → Nat → Fin 62) :
    ∀ fuel start s, genLoop m space rnd fuel start = some s →
      mapFind m s = none ∧ ∃ i, i < fuel ∧ s = genSlug space (rnd (start + i)) := by
  intro fuel
  induction fuel with
  | zero => intro start s h; simp [genLoop] at h
  | succ fuel ih =>
    intro start s h
    rw [genLoop] at h
    by_cases hp : (mapFind m (genSlug space (rnd start))).isSome = true
    · rw [if_pos hp] at h
      obtain ⟨hnone, i, hi, hs⟩ := ih (start + 1) s h
      refine ⟨hnone, i + 1, by omega, ?_⟩
      have e : start + (i + 1) = start + 1 + i := by omega
      rw [e]
      exact hs
    · rw [if_neg hp] at h
      obtain rfl := Option.some.inj h
      refine ⟨Option.not_isSome_iff_eq_none.mp hp, 0, by omega, ?_⟩
      rw [Nat.add_zero]

/-- C7: unique-slug generation is a generate-and-check loop of at most
100000 attempts.  It fails (the source panics) exactly when each of the
100000 candidates is already present in the forward map; a returned slug
is absent from the forward map and is one of the at most 100000 drawn
candidates. -/
theorem C7_genUniqueSlug_attempt_bound (m : SMap) (space : Nat) (rnd : Nat → Nat → Fin 62) :
    (genUniqueSlug m space rnd = none ↔
      ∀ i, i < 100000 → (mapFind m (genSlug space (rnd i))).isSome = true) ∧
    (∀ s, genUniqueSlug m space rnd = some s →
      mapFind m s = none ∧ ∃ i, i < 100000 ∧ s = genSlug space (rnd i)) := by
  constructor
  · rw [genUniqueSlug, genLoop_eq_none_iff]
    constructor
    · intro hall i hi
      have := hall i hi
      rwa [Nat.zero_add] at this
    · intro hall i hi
      have := hall i hi
      rwa [Nat.zero_add]
  · intro s h
    obtain ⟨h1, i, hi, hs⟩ := genLoop_some_spec m space rnd 100000 0 s h
    rw [Nat.zero_add] at hs
    exact ⟨h1, i, hi, hs⟩

theorem C7_witness :
    mapFind [("a".toList, "u".toList)] "b".toList = none ∧
    ∃ i, i < 100000 ∧ "b".toList = genSlug 1 (rndSeq i) :=
  (C7_genUniqueSlug_attempt_bound [("a".toList, "u".toList)] 1 rndSeq).2
    "b".toList (by decide)

theorem dropCR_eq_self (l : Str) (h : l.getLast? ≠ some '\r') : dropCR l = l := by
  simp [dropCR, h]

theorem scanLinesAux_append (l : Str) (hl : '\n' ∉ l) :
    ∀ (rest acc : Str), scanLinesAux (l ++ '\n' :: rest) acc =
      dropCR (acc.reverse ++ l) :: scanLinesAux rest [] := by
  induction l with
  | nil => intro rest acc; simp [scanLinesAux]
  | cons c l ih =>
    intro rest acc
    have hc : c ≠ '\n' := fun h => hl (h ▸ List.mem_cons_self c l)
    have hl' : '\n' ∉ l := fun h => hl (List.mem_cons_of_mem c h)
    simp only [List.cons_append, scanLinesAux, if_neg hc, List.append_eq]
    rw [ih hl' rest (c :: acc)]
    simp [List.append_assoc]

theorem scanLines_of_lines :
    ∀ ls : List Str, (∀ l ∈ ls, '\n' ∉ l ∧ l.getLast? ≠ some '\r') →
      scanLines ((ls.map (fun l => l ++ ['\n'])).flatten) = ls := by
  intro ls
  induction ls with
  | nil => intro _; simp [scanLines, scanLinesAux]
  | cons l ls ih =>
    intro h
    obtain ⟨⟨hnl, hcr⟩, hrest⟩ := List.forall_mem_cons.mp h
    simp only [List.map_cons, List.flatten_cons, List.append_assoc, List.singleton_append]
    rw [scanLines, scanLinesAux_append l hnl]
    rw [List.reverse_nil, List.nil_append, dropCR_eq_self l hcr]
    exact congrArg (l :: ·) (ih hrest)

theorem writeLine_eq (p : Str × Str) : writeLine p = lineContent p ++ ['\n'] := by
  simp [writeLine, lineContent, List.append_assoc]

theorem nl_not_mem_stripNL (u : Str) : '\n' ∉ stripNL u := by
  simp [stripNL]

theorem lineContent_no_nl (p : Str × Str) (h : '\n' ∉ p.1) : '\n' ∉ lineContent p := by
  simp only [lineContent, List.mem_append, List.mem_cons]
  push_neg
  exact ⟨h, by decide, nl_not_mem_stripNL p.2⟩

theorem lineContent_no_cr (p : Str × Str) (h : (stripNL p.2).getLast? ≠ some '\r') :
    (lineContent p).getLast? ≠ some '\r' := by
  rw [lineContent, List.getLast?_append_cons]
  cases hu : stripNL p.2 with
  | nil => decide
  | cons c l =>
    rw [List.getLast?_cons_cons]
    rw [hu] at h
    exact h

theorem foldl_loadLine_storage :
    ∀ (lines : List Str) (st : Store),
      (lines.foldl loadLine st).storage =
        lines.foldl (fun acc l =>
          match splitAtFirstSpace l with
          | some (a, b) => mapInsert acc a b
          | none => acc) st.storage := by
  intro lines
  induction lines with
  | nil => intro st; rfl
  | cons l lines ih =>
    intro st
    rw [List.foldl_cons, List.foldl_cons, ih]
    cases hs : splitAtFirstSpace l with
    | none => simp [loadLine, hs]
    | some p => cases p with
      | mk a b => simp [loadLine, hs]

theorem mapFind_append_none (a b : SMap) (k : Str) (h : mapFind a k = none) :
    mapFind (a ++ b) k = mapFind b k := by
  induction a with
  | nil => rfl
  | cons p rest ih =>
    by_cases hp : p.1 = k
    · rw [mapFind, if_pos hp] at h
      exact Option.noConfusion h
    · rw [mapFind, if_neg hp] at h
      rw [List.cons_append, mapFind, if_neg hp]
      exact ih h

theorem mapInsert_eq_append (m : SMap) (k : Str) (v : Str) (h : mapFind m k = none) :
    mapInsert m k v = m ++ [(k, v)] := by
  induction m with
  | nil => rfl
  | cons p rest ih =>
    by_cases hp : p.1 = k
    · rw [mapFind, if_pos hp] at h
      exact Option.noConfusion h
    · rw [mapFind, if_neg hp] at h
      rw [mapInsert, if_neg hp, List.cons_append, ih h]

theorem foldl_insert_fresh :
    ∀ (ps init : SMap), (ps.map Prod.fst).Nodup →
      (∀ p ∈ ps, mapFind init p.1 = none) →
      ps.foldl (fun acc p => mapInsert acc p.1 p.2) init = init ++ ps := by
  intro ps
  induction ps with
  | nil => intro init _ _; simp
  | cons p ps ih =>
    intro init hnd hfresh
    rw [List.map_cons, List.nodup_cons] at hnd
    obtain ⟨hpnotin, hnd'⟩ := hnd
    rw [List.foldl_cons]
    have hins : mapInsert init p.1 p.2 = init ++ [p] := by
      rw [mapInsert_eq_append init p.1 p.2 (hfresh p (List.mem_cons_self p ps)),
        Prod.mk.eta]
    rw [hins, ih (init ++ [p]) hnd']
    · rw [List.append_assoc, List.singleton_append]
    · intro q hq
      have hq1 : mapFind init q.1 = none := hfresh q (List.mem_cons_of_mem p hq)
      rw [mapFind_append_none init [p] q.1 hq1]
      have hne : ¬(p.1 = q.1) := by
        intro he
        exact hpnotin (he ▸ List.mem_map_of_mem Prod.fst hq)
      rw [mapFind, if_neg hne]
      rfl

theorem strippedPairs_keys (m : SMap) :
    (strippedPairs m).map Prod.fst = m.map Prod.fst := by
  simp [strippedPairs, List.map_map, Function.comp]

/-- C8 (amended): for every store whose slugs contain no space and no
newline, and whose URLs do not end in a carriage return once their
newlines are stripped, persisting and reloading yields exactly the
forward pairs with newline-stripped URLs.  (The original universally
quantified claim fails: a URL whose stripped form ends in `'\r'` loses
that final `'\r'` on reload, because the scanner treats it as part of a
line terminator.) -/
theorem C8_persist_reload_roundtrip (m : SMap)
    (hkeys : (m.map Prod.fst).Nodup)
    (hgood : ∀ p ∈ m, ' ' ∉ p.1 ∧ '\n' ∉ p.1 ∧ (stripNL p.2).getLast? ≠ some '\r') :
    (readStorage (some (writeStorage m))).storage = strippedPairs m := by
  have hw : writeStorage m = ((m.map lineContent).map (fun l => l ++ ['\n'])).flatten := by
    rw [writeStorage, List.map_map]
    exact congrArg List.flatten (List.map_congr_left (fun p _ => writeLine_eq p))
  have hscan : scanLines (writeStorage m) = m.map lineContent := by
    rw [hw]
    apply scanLines_of_lines
    intro l hl
    obtain ⟨p, hp, rfl⟩ := List.mem_map.mp hl
    exact ⟨lineContent_no_nl p (hgood p hp).2.1, lineContent_no_cr p (hgood p hp).2.2⟩
  rw [readStorage, hscan, foldl_loadLine_storage]
  rw [List.foldl_map]
  have h1 : m.foldl (fun acc p =>
      match splitAtFirstSpace (lineContent p) with
      | some (a, b) => mapInsert acc a b
      | none => acc) emptyStore.storage =
    m.foldl (fun acc p => mapInsert acc p.1 (stripNL p.2)) [] := by
    apply List.foldl_ext
    intro acc p hp
    rw [lineContent, splitAtFirstSpace_append p.1 (stripNL p.2) (hgood p hp).1]
  rw [h1]
  have h2 : m.foldl (fun acc p => mapInsert acc p.1 (stripNL p.2)) [] =
      (strippedPairs m).foldl (fun acc p => mapInsert acc p.1 p.2) [] := by
    rw [strippedPairs, List.foldl_map]
  rw [h2, foldl_insert_fresh (strippedPairs m) []
    (by rw [strippedPairs_keys]; exact hkeys) (fun p _ => rfl)]
  rfl

/-- C8, original form, refuted: the store mapping slug "a" to the URL
"u\r" round-trips to the pair ("a", "u"), not to ("a", "u\r") as the
claim (round trip up to newline stripping only) predicts. -/
theorem C8_counterexample :
    ("a".toList, ['u', '\r']) ∈ strippedPairs [("a".toList, ['u', '\r'])] ∧
    ("a".toList, ['u', '\r']) ∉
      (readStorage (some (writeStorage [("a".toList, ['u', '\r'])]))).storage := by
  decide

theorem C8_witness :
    (readStorage (some (writeStorage
        [("ab".toList, ['u', '\n', 'x']), ("c".toList, "w".toList)]))).storage =
      strippedPairs [("ab".toList, ['u', '\n', 'x']), ("c".toList, "w".toList)] :=
  C8_persist_reload_roundtrip
    [("ab".toList, ['u', '\n', 'x']), ("c".toList, "w".toList)]
    (by decide) (by decide)

end GoShort
